import Mathlib

/-!
Verification development for the SkolaOnline substitution-processing engine
(repository `spsehavirov/skolaonline-suplovani`).

The Python sources under `src/supl/` are shallowly embedded as Lean
definitions:

* `supl/hours.py` (`SchoolSchedule`): wall-clock times become `Nat` seconds
  since midnight; the hard-coded period catalogue becomes `schedulePeriods`
  and `SchoolSchedule._detect_periods` becomes `detect_periods`.
* `supl/suplovani_base.py` (`SuplovaniBase`): `_parse_period_range`,
  `filter_records_by_end_period`, `day_end_period`, `_extract_subjects`.
* `supl/suplovani_students.py` (`SuplovaniZaci`): the conflict resolvers,
  the class include/exclude filtering of `extract_substitutions`,
  `_extract_teachers`, `_extract_absence_reasons`, `extract_absences`.

Python dicts keyed by first-insertion order are embedded as ordered
association lists; raising code (attribute errors on missing XML fields,
date parse errors) is embedded in the `Except String` monad.
-/

/-- Model of Python `str.strip()` (no arguments): remove leading and trailing
whitespace. Implemented over the character list so that it evaluates by
kernel reduction (Lean's own `String.trim` does not). -/
def pyStrip (s : String) : String :=
  ⟨((s.data.dropWhile Char.isWhitespace).reverse.dropWhile Char.isWhitespace).reverse⟩

/-- Model of Python `str.lower()` (the labels this code lowers are ASCII or
already lowercase, so ASCII lowering is an adequate model). -/
def pyLower (s : String) : String :=
  ⟨s.data.map Char.toLower⟩

/-- Model of Python `str.upper()`. -/
def pyUpper (s : String) : String :=
  ⟨s.data.map Char.toUpper⟩

/-- Model of the Python `in` substring test: does `needle` occur
contiguously inside `hay`? -/
def listContains (hay needle : List Char) : Bool :=
  match hay with
  | [] => needle.isEmpty
  | _ :: t => needle.isPrefixOf hay || listContains t needle

/-- Flat substitution record produced by `SuplovaniZaci.extract_substitutions`:
the nine string fields of the candidate-record dictionary. -/
structure SubRecord where
  Class : String
  Period : String
  Subject : String
  Group : String
  Room : String
  Teacher : String
  Teacher_Abbreviation : String
  Resolution : String
  Note : String
deriving DecidableEq, Repr

/-- Grouping key used by `extract_final_substitutions2.group_records`:
the tuple `(rec.get("Class", ""), rec.get("Period", ""))`. -/
def recKey (r : SubRecord) : String × String := (r.Class, r.Period)

/-- General-cancellation test from `extract_final_substitutions2.classify_records`:
`Group` strips to the empty string and `Resolution` strips to the sentinel. -/
def genCancelB (r : SubRecord) : Bool :=
  pyStrip r.Group == "" && pyStrip r.Resolution == "odpadá"

/-- Loop of `classify_records`: the running pair is
(general cancellation seen so far — a later one overwrites, exactly as the
Python assignment `general_cancel = r` does — , subgroup records in order). -/
def classifyAux : Option SubRecord × List SubRecord → List SubRecord →
    Option SubRecord × List SubRecord
  | st, [] => st
  | (gc, subs), r :: rs =>
    if genCancelB r then classifyAux (some r, subs) rs
    else classifyAux (gc, subs ++ [r]) rs

/-- Embeds `extract_final_substitutions2.classify_records`. -/
def classify_records (recs : List SubRecord) : Option SubRecord × List SubRecord :=
  classifyAux (none, []) recs

/-- Embeds `extract_final_substitutions2.update_notes` for one record: when a
general cancellation exists, a record with a blank note receives
`"za <stripped cancellation subject>"`, provided that subject is non-blank. -/
def update_note (gc : Option SubRecord) (r : SubRecord) : SubRecord :=
  match gc with
  | none => r
  | some g =>
    if pyStrip r.Note = "" ∧ pyStrip g.Subject ≠ "" then
      { r with Note := "za " ++ pyStrip g.Subject }
    else r

/-- Per-group body of `extract_final_substitutions2`: classify, filter the
true substitutions, then either emit the note-updated substitutions, or the
general cancellation alone, or the whole group unchanged. -/
def processGroup (recs : List SubRecord) : List SubRecord :=
  let cls := classify_records recs
  let subs := cls.2.filter (fun r => pyStrip r.Resolution != "odpadá")
  if subs ≠ [] then subs.map (update_note cls.1)
  else
    match cls.1 with
    | some g => [g]
    | none => recs

/-- Key order of the `grouped` dict built by
`extract_final_substitutions2.group_records`: Python dicts iterate keys in
first-insertion order, i.e. first-occurrence order of `recKey` values. -/
def groupKeys : List SubRecord → List (String × String)
  | [] => []
  | r :: rs => recKey r :: (groupKeys rs).filter (fun k => decide (k ≠ recKey r))

/-- Embeds `SuplovaniZaci.extract_final_substitutions2`: group by
`(Class, Period)` in first-seen order (the list stored for a key is exactly
the sublist of records with that key, in input order) and concatenate the
per-group outputs. -/
def extract_final_substitutions2 (records : List SubRecord) : List SubRecord :=
  ((groupKeys records).map
    (fun k => processGroup (records.filter (fun r => decide (recKey r = k))))).flatten

section ConflictResolverLemmas

theorem classifyAux_snd (st : Option SubRecord × List SubRecord)
    (rs : List SubRecord) :
    (classifyAux st rs).2 = st.2 ++ rs.filter (fun r => !genCancelB r) := by
  induction rs generalizing st with
  | nil => simp [classifyAux]
  | cons r rs ih =>
    obtain ⟨gc, subs⟩ := st
    by_cases h : genCancelB r
    · simp [classifyAux, h, ih]
    · simp only [Bool.not_eq_true] at h
      simp [classifyAux, h, ih]

theorem getLast?_cons (a : α) (l : List α) :
    (a :: l).getLast? = l.getLast?.or (some a) := by
  cases l with
  | nil => simp
  | cons b t =>
    rw [List.getLast?_cons_cons]
    cases h : (b :: t).getLast? with
    | none => simp [List.getLast?_eq_none_iff] at h
    | some x => simp [Option.or]

theorem classifyAux_fst (st : Option SubRecord × List SubRecord)
    (rs : List SubRecord) :
    (classifyAux st rs).1 = ((rs.filter genCancelB).getLast?).or st.1 := by
  induction rs generalizing st with
  | nil => simp [classifyAux]
  | cons r rs ih =>
    obtain ⟨gc, subs⟩ := st
    by_cases h : genCancelB r
    · simp only [classifyAux, h, if_pos, List.filter_cons_of_pos, ih,
        getLast?_cons]
      cases (List.filter genCancelB rs).getLast? <;> simp [Option.or]
    · simp only [Bool.not_eq_true] at h
      simp [classifyAux, h, ih]

theorem classify_records_fst (recs : List SubRecord) :
    (classify_records recs).1 = (recs.filter genCancelB).getLast? := by
  simp [classify_records, classifyAux_fst]

theorem classify_records_snd (recs : List SubRecord) :
    (classify_records recs).2 = recs.filter (fun r => !genCancelB r) := by
  simp [classify_records, classifyAux_snd]

theorem genCancel_res (r : SubRecord) (h : genCancelB r = true) :
    pyStrip r.Resolution = "odpadá" := by
  simp only [genCancelB, Bool.and_eq_true, beq_iff_eq] at h
  exact h.2

/-- Substitution filter after classification collapses to a single filter:
any record whose stripped resolution differs from the sentinel is
automatically a subgroup record. -/
theorem subs_eq (recs : List SubRecord) :
    (recs.filter (fun r => !genCancelB r)).filter
        (fun r => pyStrip r.Resolution != "odpadá") =
      recs.filter (fun r => pyStrip r.Resolution != "odpadá") := by
  rw [List.filter_filter]
  apply List.filter_congr
  intro r _
  by_cases h : pyStrip r.Resolution = "odpadá"
  · simp [h, genCancelB]
  · simp [h, genCancelB]

/-- Closed-form characterisation of `processGroup`. -/
theorem processGroup_char (recs : List SubRecord) :
    processGroup recs =
      if recs.filter (fun r => pyStrip r.Resolution != "odpadá") ≠ [] then
        (recs.filter (fun r => pyStrip r.Resolution != "odpadá")).map
          (update_note ((recs.filter genCancelB).getLast?))
      else
        match (recs.filter genCancelB).getLast? with
        | some g => [g]
        | none => recs := by
  simp only [processGroup, classify_records_fst, classify_records_snd, subs_eq]

end ConflictResolverLemmas

section ConflictResolverBranches

theorem update_note_Resolution (gc : Option SubRecord) (r : SubRecord) :
    (update_note gc r).Resolution = r.Resolution := by
  cases gc with
  | none => rfl
  | some g =>
    simp only [update_note]
    split <;> rfl

theorem update_note_Group (gc : Option SubRecord) (r : SubRecord) :
    (update_note gc r).Group = r.Group := by
  cases gc with
  | none => rfl
  | some g =>
    simp only [update_note]
    split <;> rfl

theorem update_note_Class (gc : Option SubRecord) (r : SubRecord) :
    (update_note gc r).Class = r.Class := by
  cases gc with
  | none => rfl
  | some g =>
    simp only [update_note]
    split <;> rfl

theorem update_note_Period (gc : Option SubRecord) (r : SubRecord) :
    (update_note gc r).Period = r.Period := by
  cases gc with
  | none => rfl
  | some g =>
    simp only [update_note]
    split <;> rfl

/-- First branch of the grouped reconciliation: as soon as one record of the
group survives as a true substitution, nothing the group emits is a general
cancellation. -/
theorem processGroup_no_cancel_of_sub (g : List SubRecord)
    (h : ∃ r ∈ g, pyStrip r.Resolution ≠ "odpadá") :
    ∀ r' ∈ processGroup g, ¬(pyStrip r'.Group = "" ∧ pyStrip r'.Resolution = "odpadá") := by
  rw [processGroup_char]
  obtain ⟨r, hr, hrr⟩ := h
  have hne : g.filter (fun s => pyStrip s.Resolution != "odpadá") ≠ [] := by
    intro hnil
    rw [List.filter_eq_nil_iff] at hnil
    exact hnil r hr (by simp [hrr])
  rw [if_pos hne]
  intro r' hr'
  rw [List.mem_map] at hr'
  obtain ⟨s, hs, rfl⟩ := hr'
  rw [List.mem_filter] at hs
  have hsr : pyStrip s.Resolution ≠ "odpadá" := by simpa using hs.2
  rintro ⟨-, h2⟩
  rw [update_note_Resolution] at h2
  exact hsr h2

/-- Second branch: a blanket-cancellation-only group collapses to the last
general cancellation alone. -/
theorem processGroup_cancel_alone (g : List SubRecord)
    (hall : ∀ r ∈ g, pyStrip r.Resolution = "odpadá")
    (hgc : ∃ r ∈ g, pyStrip r.Group = "" ∧ pyStrip r.Resolution = "odpadá") :
    ∃ gc ∈ g, pyStrip gc.Group = "" ∧ pyStrip gc.Resolution = "odpadá" ∧
      processGroup g = [gc] := by
  rw [processGroup_char]
  have hsubs : g.filter (fun s => pyStrip s.Resolution != "odpadá") = [] :=
    List.filter_eq_nil_iff.mpr (fun r hr => by simp [hall r hr])
  rw [hsubs]
  rw [if_neg (by simp)]
  obtain ⟨r, hr, hr1, hr2⟩ := hgc
  have hrb : genCancelB r = true := by simp [genCancelB, hr1, hr2]
  cases hl : (g.filter genCancelB).getLast? with
  | none =>
    rw [List.getLast?_eq_none_iff] at hl
    rw [List.filter_eq_nil_iff] at hl
    exact absurd hrb (hl r hr)
  | some gl =>
    have hmem := List.mem_of_mem_getLast? hl
    rw [List.mem_filter] at hmem
    have h1 : pyStrip gl.Group = "" := by
      have := hmem.2
      simp only [genCancelB, Bool.and_eq_true, beq_iff_eq] at this
      exact this.1
    have h2 : pyStrip gl.Resolution = "odpadá" := genCancel_res gl hmem.2
    exact ⟨gl, hmem.1, h1, h2, rfl⟩

/-- Third branch: no general cancellation and no true substitution, so the
group is emitted unchanged. -/
theorem processGroup_degenerate (g : List SubRecord)
    (hall : ∀ r ∈ g, pyStrip r.Resolution = "odpadá")
    (hnogc : ∀ r ∈ g, ¬(pyStrip r.Group = "" ∧ pyStrip r.Resolution = "odpadá")) :
    processGroup g = g := by
  rw [processGroup_char]
  have hsubs : g.filter (fun s => pyStrip s.Resolution != "odpadá") = [] :=
    List.filter_eq_nil_iff.mpr (fun r hr => by simp [hall r hr])
  rw [hsubs]
  rw [if_neg (by simp)]
  have hfil : g.filter genCancelB = [] := by
    rw [List.filter_eq_nil_iff]
    intro r hr hrb
    exact hnogc r hr ⟨(by
      simp only [genCancelB, Bool.and_eq_true, beq_iff_eq] at hrb
      exact hrb.1), genCancel_res r hrb⟩
  rw [hfil]
  rfl

end ConflictResolverBranches

/-- C1: in each (Class, Period) group formed by
`extract_final_substitutions2`, (a) if some record has a stripped
`Resolution` different from the cancellation sentinel, the group's output
contains no general-cancellation record; (b) otherwise, if a general
cancellation exists, it is emitted alone; (c) otherwise the whole group is
emitted unchanged. -/
theorem extract_final2_group_reconciliation (rs : List SubRecord)
    (k : String × String) (hk : k ∈ groupKeys rs) :
    ((∃ r ∈ rs.filter (fun r => decide (recKey r = k)),
        pyStrip r.Resolution ≠ "odpadá") →
      ∀ r' ∈ processGroup (rs.filter (fun r => decide (recKey r = k))),
        ¬(pyStrip r'.Group = "" ∧ pyStrip r'.Resolution = "odpadá")) ∧
    ((∀ r ∈ rs.filter (fun r => decide (recKey r = k)),
        pyStrip r.Resolution = "odpadá") →
      (∃ r ∈ rs.filter (fun r => decide (recKey r = k)),
        pyStrip r.Group = "" ∧ pyStrip r.Resolution = "odpadá") →
      ∃ gc ∈ rs.filter (fun r => decide (recKey r = k)),
        pyStrip gc.Group = "" ∧ pyStrip gc.Resolution = "odpadá" ∧
        processGroup (rs.filter (fun r => decide (recKey r = k))) = [gc]) ∧
    ((∀ r ∈ rs.filter (fun r => decide (recKey r = k)),
        pyStrip r.Resolution = "odpadá") →
      (∀ r ∈ rs.filter (fun r => decide (recKey r = k)),
        ¬(pyStrip r.Group = "" ∧ pyStrip r.Resolution = "odpadá")) →
      processGroup (rs.filter (fun r => decide (recKey r = k))) =
        rs.filter (fun r => decide (recKey r = k))) := by
  refine ⟨?_, ?_, ?_⟩
  · exact fun h => processGroup_no_cancel_of_sub _ h
  · exact fun hall hgc => processGroup_cancel_alone _ hall hgc
  · exact fun hall hnogc => processGroup_degenerate _ hall hnogc

section IdempotenceMachinery

theorem extract_final2_def (l : List SubRecord) :
    extract_final_substitutions2 l =
      ((groupKeys l).map
        (fun k => processGroup (l.filter (fun r => decide (recKey r = k))))).flatten :=
  rfl

theorem recKey_update_note (gc : Option SubRecord) (r : SubRecord) :
    recKey (update_note gc r) = recKey r := by
  simp [recKey, update_note_Class, update_note_Period]

theorem processGroup_keys (g : List SubRecord) (k : String × String)
    (h : ∀ r ∈ g, recKey r = k) : ∀ r' ∈ processGroup g, recKey r' = k := by
  rw [processGroup_char]
  by_cases hA : g.filter (fun r => pyStrip r.Resolution != "odpadá") ≠ []
  · rw [if_pos hA]
    intro r' hr'
    rw [List.mem_map] at hr'
    obtain ⟨s, hs, rfl⟩ := hr'
    rw [List.mem_filter] at hs
    rw [recKey_update_note]
    exact h s hs.1
  · rw [if_neg hA]
    cases hl : (g.filter genCancelB).getLast? with
    | some g0 =>
      intro r' hr'
      have hg0 : g0 ∈ g := by
        have hmem := List.mem_of_mem_getLast? hl
        exact (List.mem_filter.mp hmem).1
      have : r' = g0 := by simpa using hr'
      subst this
      exact h r' hg0
    | none => exact h

theorem processGroup_ne_nil (g : List SubRecord) (hg : g ≠ []) :
    processGroup g ≠ [] := by
  rw [processGroup_char]
  by_cases hA : g.filter (fun r => pyStrip r.Resolution != "odpadá") ≠ []
  · rw [if_pos hA]
    simpa using hA
  · rw [if_neg hA]
    cases hl : (g.filter genCancelB).getLast? with
    | some g0 => simp
    | none => exact hg

theorem processGroup_idem (g : List SubRecord) :
    processGroup (processGroup g) = processGroup g := by
  rw [processGroup_char g]
  by_cases hA : g.filter (fun r => pyStrip r.Resolution != "odpadá") = []
  · rw [if_neg (not_not_intro hA)]
    cases hl : (g.filter genCancelB).getLast? with
    | some g0 =>
      have hg0 : genCancelB g0 = true := by
        have hmem := List.mem_of_mem_getLast? hl
        exact (List.mem_filter.mp hmem).2
      show processGroup [g0] = [g0]
      rw [processGroup_char]
      have hne : [g0].filter (fun r => pyStrip r.Resolution != "odpadá") = [] := by
        simp [genCancel_res g0 hg0]
      rw [hne, if_neg (by simp)]
      have hfil : [g0].filter genCancelB = [g0] := by simp [hg0]
      rw [hfil]
      simp
    | none =>
      show processGroup g = g
      rw [processGroup_char, hA, if_neg (by simp), hl]
  · rw [if_pos hA]
    have hres : ∀ r' ∈ (g.filter (fun r => pyStrip r.Resolution != "odpadá")).map
        (update_note ((g.filter genCancelB).getLast?)),
        pyStrip r'.Resolution ≠ "odpadá" := by
      intro r' hr'
      rw [List.mem_map] at hr'
      obtain ⟨s, hs, rfl⟩ := hr'
      rw [List.mem_filter] at hs
      rw [update_note_Resolution]
      simpa using hs.2
    rw [processGroup_char]
    have h1 : ((g.filter (fun r => pyStrip r.Resolution != "odpadá")).map
          (update_note ((g.filter genCancelB).getLast?))).filter
          (fun r => pyStrip r.Resolution != "odpadá") =
        (g.filter (fun r => pyStrip r.Resolution != "odpadá")).map
          (update_note ((g.filter genCancelB).getLast?)) :=
      List.filter_eq_self.mpr (fun r hr => by simp [hres r hr])
    rw [h1]
    have h2 : (g.filter (fun r => pyStrip r.Resolution != "odpadá")).map
        (update_note ((g.filter genCancelB).getLast?)) ≠ [] := by
      simpa using hA
    rw [if_pos h2]
    have h3 : ((g.filter (fun r => pyStrip r.Resolution != "odpadá")).map
          (update_note ((g.filter genCancelB).getLast?))).filter genCancelB = [] :=
      List.filter_eq_nil_iff.mpr (fun r hr hgb => hres r hr (genCancel_res r hgb))
    rw [h3]
    have h4 : update_note (none : Option SubRecord) = id := funext fun r => rfl
    show _ = _
    simp only [List.getLast?_nil, h4, List.map_id]

theorem groupKeys_nodup (rs : List SubRecord) : (groupKeys rs).Nodup := by
  induction rs with
  | nil => simp [groupKeys]
  | cons r rs ih =>
    rw [groupKeys, List.nodup_cons]
    refine ⟨?_, ih.filter _⟩
    intro hmem
    rw [List.mem_filter] at hmem
    simpa using hmem.2

theorem mem_groupKeys (rs : List SubRecord) (k : String × String) :
    k ∈ groupKeys rs ↔ ∃ r ∈ rs, recKey r = k := by
  induction rs with
  | nil => simp [groupKeys]
  | cons r rs ih =>
    rw [groupKeys, List.mem_cons]
    by_cases h : k = recKey r
    · subst h
      simp only [true_or]
      constructor
      · intro _; exact ⟨r, by simp, rfl⟩
      · intro _; trivial
    · constructor
      · rintro (rfl | hmem)
        · exact ⟨r, by simp⟩
        · rw [List.mem_filter] at hmem
          obtain ⟨s, hs, hk⟩ := ih.mp hmem.1
          exact ⟨s, by simp [hs], hk⟩
      · rintro ⟨s, hs, hk⟩
        rcases List.mem_cons.mp hs with rfl | hs'
        · exact absurd hk.symm (by simpa using h)
        · right
          rw [List.mem_filter]
          exact ⟨ih.mpr ⟨s, hs', hk⟩, by simpa using h⟩

theorem groupKeys_append_hom (k : String × String) (xs ys : List SubRecord)
    (hxs : xs ≠ []) (hhom : ∀ r ∈ xs, recKey r = k) :
    groupKeys (xs ++ ys) =
      k :: (groupKeys ys).filter (fun j => decide (j ≠ k)) := by
  induction xs with
  | nil => cases hxs rfl
  | cons x xs ih =>
    have hx : recKey x = k := hhom x (by simp)
    by_cases hxs' : xs = []
    · subst hxs'
      rw [List.singleton_append, groupKeys, hx]
    · rw [List.cons_append, groupKeys,
        ih hxs' (fun r hr => hhom r (by simp [hr])), hx]
      congr 1
      rw [List.filter_cons]
      rw [if_neg (by simp)]
      rw [List.filter_filter]
      simp

theorem groupKeys_flatten (ks : List (String × String))
    (B : (String × String) → List SubRecord) (nd : ks.Nodup)
    (hom : ∀ k ∈ ks, ∀ r ∈ B k, recKey r = k)
    (hne : ∀ k ∈ ks, B k ≠ []) :
    groupKeys ((ks.map B).flatten) = ks := by
  induction ks with
  | nil => simp [groupKeys]
  | cons k ks ih =>
    rw [List.map_cons, List.flatten_cons]
    rw [groupKeys_append_hom k _ _ (hne k (by simp)) (hom k (by simp))]
    rw [ih (List.nodup_cons.mp nd).2
      (fun j hj => hom j (by simp [hj])) (fun j hj => hne j (by simp [hj]))]
    have hk : k ∉ ks := (List.nodup_cons.mp nd).1
    congr 1
    apply List.filter_eq_self.mpr
    intro j hj
    simp only [decide_eq_true_eq]
    exact fun h => hk (h ▸ hj)

theorem filter_flatten_blocks (ks : List (String × String))
    (B : (String × String) → List SubRecord) (k : String × String)
    (nd : ks.Nodup) (hom : ∀ j ∈ ks, ∀ r ∈ B j, recKey r = j) (hk : k ∈ ks) :
    ((ks.map B).flatten).filter (fun r => decide (recKey r = k)) = B k := by
  induction ks with
  | nil => simp at hk
  | cons k0 ks ih =>
    rw [List.map_cons, List.flatten_cons, List.filter_append]
    rcases List.mem_cons.mp hk with rfl | hk'
    · have hk0 : k ∉ ks := (List.nodup_cons.mp nd).1
      have h1 : (B k).filter (fun r => decide (recKey r = k)) = B k :=
        List.filter_eq_self.mpr (fun r hr => by simp [hom k (by simp) r hr])
      have h2 : ((ks.map B).flatten).filter (fun r => decide (recKey r = k)) = [] := by
        apply List.filter_eq_nil_iff.mpr
        intro r hr
        rw [List.mem_flatten] at hr
        obtain ⟨l, hl, hrl⟩ := hr
        rw [List.mem_map] at hl
        obtain ⟨j, hj, rfl⟩ := hl
        have := hom j (by simp [hj]) r hrl
        simp only [decide_eq_true_eq, this]
        exact fun h => hk0 (h ▸ hj)
      rw [h1, h2, List.append_nil]
    · have hne0 : k ≠ k0 := by
        rintro rfl
        exact (List.nodup_cons.mp nd).1 hk'
      have h1 : (B k0).filter (fun r => decide (recKey r = k)) = [] := by
        apply List.filter_eq_nil_iff.mpr
        intro r hr
        have := hom k0 (by simp) r hr
        simp only [decide_eq_true_eq, this]
        exact fun h => hne0 h.symm
      rw [h1, List.nil_append]
      exact ih (List.nodup_cons.mp nd).2 (fun j hj => hom j (by simp [hj])) hk'

end IdempotenceMachinery

/-- C3: the grouped conflict resolver `extract_final_substitutions2` is
idempotent: applying it to its own output reproduces that output, in the
same order. -/
theorem extract_final2_idempotent (rs : List SubRecord) :
    extract_final_substitutions2 (extract_final_substitutions2 rs) =
      extract_final_substitutions2 rs := by
  have hnd : (groupKeys rs).Nodup := groupKeys_nodup rs
  have hom : ∀ k ∈ groupKeys rs,
      ∀ r ∈ processGroup (rs.filter (fun r => decide (recKey r = k))),
        recKey r = k := by
    intro k _ r hr
    refine processGroup_keys _ k ?_ r hr
    intro s hs
    rw [List.mem_filter] at hs
    simpa using hs.2
  have hne : ∀ k ∈ groupKeys rs,
      processGroup (rs.filter (fun r => decide (recKey r = k))) ≠ [] := by
    intro k hk
    apply processGroup_ne_nil
    rw [mem_groupKeys] at hk
    obtain ⟨r, hr, hkey⟩ := hk
    intro hnil
    rw [List.filter_eq_nil_iff] at hnil
    exact hnil r hr (by simp [hkey])
  rw [extract_final2_def rs, extract_final2_def]
  rw [groupKeys_flatten (groupKeys rs) _ hnd hom hne]
  congr 1
  apply List.map_congr_left
  intro k hk
  rw [filter_flatten_blocks (groupKeys rs) _ k hnd hom hk]
  exact processGroup_idem _

/-- Record used in the C2 counterexample: a general cancellation whose
`Subject` is empty. -/
def cxCancelNoSubject : SubRecord := ⟨"3A", "3", "", "", "U1", "", "", "odpadá", ""⟩

/-- Record used in the C2 counterexample and witness: a true substitution
with an empty `Note` in the same (Class, Period) slot. -/
def cxSubstitution : SubRecord := ⟨"3A", "3", "Sem", "S1", "U2", "", "", "supluje", ""⟩

/-- Record used in the C2 witness: a general cancellation carrying the
subject "Ma". -/
def cxCancelMath : SubRecord := ⟨"3A", "3", "Ma", "", "U1", "", "", "odpadá", ""⟩

/-- C2 counterexample: the claim fails when the cancelled record's `Subject`
is empty. The group below contains a general cancellation (with blank
`Subject`) which the resolver suppresses, and the emitted substitution
record's original `Note` is empty; yet its output `Note` stays empty,
because `update_notes` only backfills when the stripped cancellation
subject is non-empty. -/
theorem extract_final2_note_backfill_cex :
    genCancelB cxCancelNoSubject = true ∧
    pyStrip cxSubstitution.Resolution ≠ "odpadá" ∧
    pyStrip cxSubstitution.Note = "" ∧
    extract_final_substitutions2 [cxCancelNoSubject, cxSubstitution] =
      [cxSubstitution] ∧
    cxSubstitution.Note = "" := by
  refine ⟨by decide, by decide, by decide, by decide, rfl⟩

/-- C2 amended: in every group where the resolver suppresses a general
cancellation, and PROVIDED the cancellation's stripped `Subject` is
non-empty, every emitted substitution record whose original `Note` was
blank gets the non-empty note "za <stripped subject>", which contains the
cancelled subject. -/
theorem extract_final2_note_backfill (rs : List SubRecord) (k : String × String)
    (hk : k ∈ groupKeys rs) (gc : SubRecord)
    (hgc : (classify_records (rs.filter (fun r => decide (recKey r = k)))).1 = some gc)
    (hsubj : pyStrip gc.Subject ≠ "")
    (r : SubRecord) (hr : r ∈ rs.filter (fun r => decide (recKey r = k)))
    (hres : pyStrip r.Resolution ≠ "odpadá") (hnote : pyStrip r.Note = "") :
    update_note (some gc) r ∈
      processGroup (rs.filter (fun r => decide (recKey r = k))) ∧
    (update_note (some gc) r).Note ≠ "" ∧
    ∃ s1 s2, (update_note (some gc) r).Note = s1 ++ pyStrip gc.Subject ++ s2 := by
  rw [classify_records_fst] at hgc
  have hmem : update_note (some gc) r ∈
      processGroup (rs.filter (fun r => decide (recKey r = k))) := by
    rw [processGroup_char]
    have hne : (rs.filter (fun r => decide (recKey r = k))).filter
        (fun s => pyStrip s.Resolution != "odpadá") ≠ [] := by
      intro hnil
      rw [List.filter_eq_nil_iff] at hnil
      exact hnil r hr (by simp [hres])
    rw [if_pos hne, hgc]
    exact List.mem_map.mpr ⟨r, List.mem_filter.mpr ⟨hr, by simp [hres]⟩, rfl⟩
  have hupd : (update_note (some gc) r).Note = "za " ++ pyStrip gc.Subject := by
    simp [update_note, hnote, hsubj]
  refine ⟨hmem, ?_, ⟨"za ", "", ?_⟩⟩
  · rw [hupd]
    intro h
    have hd := congrArg String.data h
    rw [String.data_append] at hd
    simp at hd
  · rw [hupd]
    simp

/-- C2 witness: concrete group with cancellation subject "Ma" and a
substitution with empty note; the claim instance produced by the amended
theorem holds there. -/
theorem extract_final2_note_backfill_witness :
    update_note (some cxCancelMath) cxSubstitution ∈
      processGroup ([cxCancelMath, cxSubstitution].filter
        (fun r => decide (recKey r = ("3A", "3")))) ∧
    (update_note (some cxCancelMath) cxSubstitution).Note ≠ "" ∧
    ∃ s1 s2, (update_note (some cxCancelMath) cxSubstitution).Note =
      s1 ++ pyStrip cxCancelMath.Subject ++ s2 :=
  extract_final2_note_backfill [cxCancelMath, cxSubstitution] ("3A", "3")
    (by decide) cxCancelMath (by decide) (by decide) cxSubstitution (by decide)
    (by decide) (by decide)

/-- C1 witness: in the concrete group containing a general cancellation
("Ma", cancelled) and a true substitution, the record the resolver emits is
not a general cancellation. -/
theorem extract_final2_group_reconciliation_witness :
    ¬(pyStrip (update_note (some cxCancelMath) cxSubstitution).Group = "" ∧
      pyStrip (update_note (some cxCancelMath) cxSubstitution).Resolution = "odpadá") :=
  (extract_final2_group_reconciliation [cxCancelMath, cxSubstitution]
      ("3A", "3") (by decide)).1
    ⟨cxSubstitution, by decide, by decide⟩
    (update_note (some cxCancelMath) cxSubstitution) (by decide)

/-- Named teaching period of the hard-coded catalogue in `SchoolSchedule.__init__`;
`start`/`stop` are wall-clock seconds since midnight. -/
structure SchoolPeriod where
  name : String
  start : Nat
  stop : Nat
deriving DecidableEq, Repr

/-- The eight-period catalogue hard-coded in `SchoolSchedule.__init__`
(times: 7:55-8:40, 8:45-9:30, 9:35-10:20, 10:30-11:15, 11:35-12:20,
12:25-13:10, 13:15-14:00, 14:05-14:50, in seconds since midnight). -/
def schedulePeriods : List SchoolPeriod := [
  ⟨"1", 28500, 31200⟩,
  ⟨"2", 31500, 34200⟩,
  ⟨"3", 34500, 37200⟩,
  ⟨"4", 37800, 40500⟩,
  ⟨"5", 41700, 44400⟩,
  ⟨"6", 44700, 47400⟩,
  ⟨"7", 47700, 50400⟩,
  ⟨"8", 50700, 53400⟩
]

/-- Embeds `SchoolSchedule._detect_periods`: collect the periods overlapping
the interval (inclusive test `from_time <= end and to_time >= start`), then
derive the textual range. The list indexings `detected_periods[0]` and
`detected_periods[-1]` happen only under the non-emptiness guard, where
`headD ""`/`getLastD ""` agree with them. -/
def detect_periods (periods : List SchoolPeriod) (from_time to_time : Nat) :
    List String × String :=
  let detected := (periods.filter
    (fun p => decide (from_time ≤ p.stop ∧ p.start ≤ to_time))).map
      (fun p => p.name)
  if from_time = 0 ∧ to_time = 0 then (detected, "celý den")
  else if detected ≠ [] then
    if detected = periods.map (fun p => p.name) ∨ 7 ≤ detected.length then
      (detected, "celý den")
    else if detected.head? = detected.getLast? then
      (detected, detected.headD "")
    else
      (detected, detected.headD "" ++ "-" ++ detected.getLastD "")
  else ([], "")

/-- C4: an interval lying fully inside one catalogue period is resolved to
exactly that period and labelled with its name. -/
theorem detect_periods_single (a b : Nat) (p : SchoolPeriod)
    (hp : p ∈ schedulePeriods) (h1 : p.start ≤ a) (h2 : a ≤ b) (h3 : b ≤ p.stop) :
    detect_periods schedulePeriods a b = ([p.name], p.name) := by
  have hmem : p = (⟨"1", 28500, 31200⟩ : SchoolPeriod) ∨
      p = ⟨"2", 31500, 34200⟩ ∨ p = ⟨"3", 34500, 37200⟩ ∨
      p = ⟨"4", 37800, 40500⟩ ∨ p = ⟨"5", 41700, 44400⟩ ∨
      p = ⟨"6", 44700, 47400⟩ ∨ p = ⟨"7", 47700, 50400⟩ ∨
      p = ⟨"8", 50700, 53400⟩ := by
    simpa [schedulePeriods] using hp
  rcases hmem with rfl | rfl | rfl | rfl | rfl | rfl | rfl | rfl
  · -- interval inside period "1"
    have ha : 28500 ≤ a := h1
    have hb : b ≤ 31200 := h3
    have hmid : ¬(a = 0 ∧ b = 0) := by omega
    have g1 : a ≤ 31200 := by omega
    have g2 : 28500 ≤ b := by omega
    have f2 : ¬(31500 ≤ b) := by omega
    have f3 : ¬(34500 ≤ b) := by omega
    have f4 : ¬(37800 ≤ b) := by omega
    have f5 : ¬(41700 ≤ b) := by omega
    have f6 : ¬(44700 ≤ b) := by omega
    have f7 : ¬(47700 ≤ b) := by omega
    have f8 : ¬(50700 ≤ b) := by omega
    simp [detect_periods, schedulePeriods, hmid, g1, g2, f2, f3, f4, f5, f6, f7, f8]
  · -- interval inside period "2"
    have ha : 31500 ≤ a := h1
    have hb : b ≤ 34200 := h3
    have hmid : ¬(a = 0 ∧ b = 0) := by omega
    have f1 : ¬(a ≤ 31200) := by omega
    have g1 : a ≤ 34200 := by omega
    have g2 : 31500 ≤ b := by omega
    have f3 : ¬(34500 ≤ b) := by omega
    have f4 : ¬(37800 ≤ b) := by omega
    have f5 : ¬(41700 ≤ b) := by omega
    have f6 : ¬(44700 ≤ b) := by omega
    have f7 : ¬(47700 ≤ b) := by omega
    have f8 : ¬(50700 ≤ b) := by omega
    simp [detect_periods, schedulePeriods, hmid, f1, g1, g2, f3, f4, f5, f6, f7, f8]
  · -- interval inside period "3"
    have ha : 34500 ≤ a := h1
    have hb : b ≤ 37200 := h3
    have hmid : ¬(a = 0 ∧ b = 0) := by omega
    have f1 : ¬(a ≤ 31200) := by omega
    have f2 : ¬(a ≤ 34200) := by omega
    have g1 : a ≤ 37200 := by omega
    have g2 : 34500 ≤ b := by omega
    have f4 : ¬(37800 ≤ b) := by omega
    have f5 : ¬(41700 ≤ b) := by omega
    have f6 : ¬(44700 ≤ b) := by omega
    have f7 : ¬(47700 ≤ b) := by omega
    have f8 : ¬(50700 ≤ b) := by omega
    simp [detect_periods, schedulePeriods, hmid, f1, f2, g1, g2, f4, f5, f6, f7, f8]
  · -- interval inside period "4"
    have ha : 37800 ≤ a := h1
    have hb : b ≤ 40500 := h3
    have hmid : ¬(a = 0 ∧ b = 0) := by omega
    have f1 : ¬(a ≤ 31200) := by omega
    have f2 : ¬(a ≤ 34200) := by omega
    have f3 : ¬(a ≤ 37200) := by omega
    have g1 : a ≤ 40500 := by omega
    have g2 : 37800 ≤ b := by omega
    have f5 : ¬(41700 ≤ b) := by omega
    have f6 : ¬(44700 ≤ b) := by omega
    have f7 : ¬(47700 ≤ b) := by omega
    have f8 : ¬(50700 ≤ b) := by omega
    simp [detect_periods, schedulePeriods, hmid, f1, f2, f3, g1, g2, f5, f6, f7, f8]
  · -- interval inside period "5"
    have ha : 41700 ≤ a := h1
    have hb : b ≤ 44400 := h3
    have hmid : ¬(a = 0 ∧ b = 0) := by omega
    have f1 : ¬(a ≤ 31200) := by omega
    have f2 : ¬(a ≤ 34200) := by omega
    have f3 : ¬(a ≤ 37200) := by omega
    have f4 : ¬(a ≤ 40500) := by omega
    have g1 : a ≤ 44400 := by omega
    have g2 : 41700 ≤ b := by omega
    have f6 : ¬(44700 ≤ b) := by omega
    have f7 : ¬(47700 ≤ b) := by omega
    have f8 : ¬(50700 ≤ b) := by omega
    simp [detect_periods, schedulePeriods, hmid, f1, f2, f3, f4, g1, g2, f6, f7, f8]
  · -- interval inside period "6"
    have ha : 44700 ≤ a := h1
    have hb : b ≤ 47400 := h3
    have hmid : ¬(a = 0 ∧ b = 0) := by omega
    have f1 : ¬(a ≤ 31200) := by omega
    have f2 : ¬(a ≤ 34200) := by omega
    have f3 : ¬(a ≤ 37200) := by omega
    have f4 : ¬(a ≤ 40500) := by omega
    have f5 : ¬(a ≤ 44400) := by omega
    have g1 : a ≤ 47400 := by omega
    have g2 : 44700 ≤ b := by omega
    have f7 : ¬(47700 ≤ b) := by omega
    have f8 : ¬(50700 ≤ b) := by omega
    simp [detect_periods, schedulePeriods, hmid, f1, f2, f3, f4, f5, g1, g2, f7, f8]
  · -- interval inside period "7"
    have ha : 47700 ≤ a := h1
    have hb : b ≤ 50400 := h3
    have hmid : ¬(a = 0 ∧ b = 0) := by omega
    have f1 : ¬(a ≤ 31200) := by omega
    have f2 : ¬(a ≤ 34200) := by omega
    have f3 : ¬(a ≤ 37200) := by omega
    have f4 : ¬(a ≤ 40500) := by omega
    have f5 : ¬(a ≤ 44400) := by omega
    have f6 : ¬(a ≤ 47400) := by omega
    have g1 : a ≤ 50400 := by omega
    have g2 : 47700 ≤ b := by omega
    have f8 : ¬(50700 ≤ b) := by omega
    simp [detect_periods, schedulePeriods, hmid, f1, f2, f3, f4, f5, f6, g1, g2, f8]
  · -- interval inside period "8"
    have ha : 50700 ≤ a := h1
    have hb : b ≤ 53400 := h3
    have hmid : ¬(a = 0 ∧ b = 0) := by omega
    have f1 : ¬(a ≤ 31200) := by omega
    have f2 : ¬(a ≤ 34200) := by omega
    have f3 : ¬(a ≤ 37200) := by omega
    have f4 : ¬(a ≤ 40500) := by omega
    have f5 : ¬(a ≤ 44400) := by omega
    have f6 : ¬(a ≤ 47400) := by omega
    have f7 : ¬(a ≤ 50400) := by omega
    have g1 : a ≤ 53400 := by omega
    have g2 : 50700 ≤ b := by omega
    simp [detect_periods, schedulePeriods, hmid, f1, f2, f3, f4, f5, f6, f7, g1, g2]

/-- C4 witness: 10:00-10:00 lies inside catalogue period "3" and resolves to
exactly that period. -/
theorem detect_periods_single_witness :
    detect_periods schedulePeriods 36000 36000 = (["3"], "3") :=
  detect_periods_single 36000 36000 ⟨"3", 34500, 37200⟩ (by decide) (by decide)
    (by decide) (by decide)

/-- C5: with both endpoints at midnight the resolver labels the interval
"celý den" whatever the catalogue is, and on the program's catalogue it
returns the empty period set with that label. -/
theorem detect_periods_midnight :
    (∀ ps : List SchoolPeriod, (detect_periods ps 0 0).2 = "celý den") ∧
    detect_periods schedulePeriods 0 0 = ([], "celý den") := by
  constructor
  · intro ps
    simp [detect_periods]
  · decide

/-- Folding step extracting maximal digit runs: the state is (numbers
already completed, value of the digit run in progress). -/
def pyDigitRunsStep (st : List Nat × Option Nat) (c : Char) : List Nat × Option Nat :=
  if c.isDigit then
    match st.2 with
    | some n => (st.1, some (n * 10 + (c.toNat - 48)))
    | none => (st.1, some (c.toNat - 48))
  else
    match st.2 with
    | some n => (st.1 ++ [n], none)
    | none => st

/-- Model of Python `re.findall(r"\d+", s)` followed by `int(...)`: the
maximal digit runs of `s`, each converted to a number, in order. -/
def pyFindNumbers (s : String) : List Nat :=
  let st := s.data.foldl pyDigitRunsStep ([], none)
  match st.2 with
  | some n => st.1 ++ [n]
  | none => st.1

/-- Embeds `SuplovaniBase._parse_period_range`: strip and lowercase the
label; a label containing both "cel" and "den" is the whole-day sentinel
`(1, 99)`; otherwise take the numbers occurring in the label — none means
unparseable, one gives a singleton range, two or more give the
min/max of the first two. -/
def parse_period_range (period_text : String) : Option (Nat × Nat) :=
  if period_text = "" then none
  else
    let normalized := pyLower (pyStrip period_text)
    if normalized = "" then none
    else if listContains normalized.data "cel".data &&
        listContains normalized.data "den".data then
      some (1, 99)
    else
      match pyFindNumbers normalized with
      | [] => none
      | [n] => some (n, n)
      | n0 :: n1 :: _ => some (min n0 n1, max n0 n1)

/-- Loop body of `SuplovaniBase.filter_records_by_end_period` for one
record: unparseable labels pass through; a record starting after the end
period is dropped; a record ending after it keeps its place with a clamped
label. -/
def clampStep (end_period : Nat) (r : SubRecord) : Option SubRecord :=
  match parse_period_range r.Period with
  | none => some r
  | some (s, e) =>
    if end_period < s then none
    else if end_period < e then
      some { r with Period :=
        if s = end_period then toString s
        else toString s ++ "-" ++ toString end_period }
    else some r

/-- Embeds `SuplovaniBase.filter_records_by_end_period`: Python's
`if not end_period` treats both `None` and `0` as "no clamping". -/
def filter_records_by_end_period (end_period : Option Nat)
    (records : List SubRecord) : List SubRecord :=
  match end_period with
  | none => records
  | some e => if e = 0 then records else records.filterMap (clampStep e)

/-- Raw configuration value as the Python code distinguishes it: an int or
a string (any other YAML type falls into the final `return None`). -/
inductive SettingVal where
  | int (i : Int)
  | str (s : String)
deriving DecidableEq, Repr

/-- Resolved settings object consumed by the engine: the values behind the
keys `day_end_period`, `day_end_hour`, `include` and `exclude`
(`settings.get(key, default)` with defaults `None`, `None`, `[]`, `[]`). -/
structure EngineSettings where
  day_end_period : Option SettingVal
  day_end_hour : Option SettingVal
  include_classes : List String
  exclude_classes : List String

/-- Model of Python `str.isdigit()` (ASCII digits; the unicode-digit cases
do not occur in this configuration surface). -/
def pyIsDigitStr (s : String) : Bool :=
  !s.data.isEmpty && s.data.all Char.isDigit

/-- Model of Python `int(...)` on an all-digit string. -/
def pyStrToNat (s : String) : Nat :=
  s.data.foldl (fun n c => n * 10 + (c.toNat - 48)) 0

/-- Embeds `SuplovaniBase.day_end_period`: read `day_end_period`, falling
back to `day_end_hour`; positive ints pass; strings are stripped and must
be non-empty all-digit with a positive value; everything else is `None`. -/
def day_end_period (st : EngineSettings) : Option Nat :=
  let raw := match st.day_end_period with
    | some v => some v
    | none => st.day_end_hour
  match raw with
  | none => none
  | some (.int i) => if 0 < i then some i.toNat else none
  | some (.str s) =>
    let s := pyStrip s
    if s = "" then none
    else if pyIsDigitStr s then
      let v := pyStrToNat s
      if 0 < v then some v else none
    else none

/-- Record with label "3-7" for the C6 computation. -/
def clampRec37 : SubRecord := ⟨"1A", "3-7", "M", "", "", "", "", "", ""⟩

/-- Record with label "6" for the C6 computation. -/
def clampRec6 : SubRecord := ⟨"1B", "6", "F", "", "", "", "", "", ""⟩

/-- Record with the whole-day label for the C6 computation. -/
def clampRecDay : SubRecord := ⟨"1C", "celý den", "Ch", "", "", "", "", "", ""⟩

/-- Settings with `day_end_period = 4`. -/
def settingsEnd4 : EngineSettings := ⟨some (.int 4), none, [], []⟩

/-- Settings with neither `day_end_period` nor `day_end_hour`. -/
def settingsNoEnd : EngineSettings := ⟨none, none, [], []⟩

/-- Record with an unparseable period label. -/
def recUnparseable : SubRecord := ⟨"2A", "???", "", "", "", "", "", "", ""⟩

theorem filter_records_some (e : Nat) (rs : List SubRecord) :
    filter_records_by_end_period (some e) rs =
      if e = 0 then rs else rs.filterMap (clampStep e) := rfl

theorem clampStep_erase_period (e : Nat) (r r' : SubRecord)
    (h : clampStep e r = some r') :
    { r' with Period := "" } = { r with Period := "" } := by
  rcases hp : parse_period_range r.Period with - | ⟨s, en⟩
  · simp only [clampStep, hp] at h
    cases h
    rfl
  · simp only [clampStep, hp] at h
    by_cases h1 : e < s
    · rw [if_pos h1] at h
      cases h
    · rw [if_neg h1] at h
      by_cases h2 : e < en
      · rw [if_pos h2] at h
        cases h
        rfl
      · rw [if_neg h2] at h
        cases h
        rfl

theorem clamp_sublist (e : Nat) (rs : List SubRecord) :
    ((filter_records_by_end_period (some e) rs).map
        (fun r => { r with Period := "" })).Sublist
      (rs.map (fun r => { r with Period := "" })) := by
  rw [filter_records_some]
  by_cases he : e = 0
  · rw [if_pos he]
  · rw [if_neg he]
    induction rs with
    | nil => simp
    | cons r rs ih =>
      rw [List.filterMap_cons, List.map_cons]
      cases hc : clampStep e r with
      | none => exact ih.cons _
      | some r' =>
        rw [List.map_cons, clampStep_erase_period e r r' hc]
        exact ih.cons₂ _

/-- C6: with `day_end_period = 4`, the clamp keeps "3-7" as "3-4", drops
"6", truncates "celý den" to "1-4"; and in general it preserves the
relative order of kept records and never adds records (up to the label
rewrite, its output is a sublist of its input). -/
theorem clamp_end4_example_and_order :
    filter_records_by_end_period (day_end_period settingsEnd4)
        [clampRec37, clampRec6, clampRecDay] =
      [{ clampRec37 with Period := "3-4" },
       { clampRecDay with Period := "1-4" }] ∧
    (∀ (e : Nat) (rs : List SubRecord),
      ((filter_records_by_end_period (some e) rs).map
          (fun r => { r with Period := "" })).Sublist
        (rs.map (fun r => { r with Period := "" }))) := by
  constructor
  · decide
  · exact clamp_sublist

theorem clampStep_unparseable (e : Nat) (r : SubRecord)
    (h : parse_period_range r.Period = none) : clampStep e r = some r := by
  unfold clampStep
  rw [h]

/-- C7: the clamp fails open — a record whose label does not parse passes
through unchanged, a list of such records is returned as-is, and with
neither `day_end_period` nor `day_end_hour` configured the clamp is the
identity on every input. -/
theorem clamp_fail_open_and_noop :
    (∀ (e : Nat) (r : SubRecord), parse_period_range r.Period = none →
      clampStep e r = some r) ∧
    (∀ (e : Nat) (rs : List SubRecord),
      (∀ r ∈ rs, parse_period_range r.Period = none) →
      filter_records_by_end_period (some e) rs = rs) ∧
    (∀ (st : EngineSettings) (rs : List SubRecord),
      st.day_end_period = none → st.day_end_hour = none →
      filter_records_by_end_period (day_end_period st) rs = rs) := by
  refine ⟨clampStep_unparseable, ?_, ?_⟩
  · intro e rs h
    rw [filter_records_some]
    by_cases he : e = 0
    · rw [if_pos he]
    · rw [if_neg he]
      induction rs with
      | nil => simp
      | cons r rs ih =>
        rw [List.filterMap_cons, clampStep_unparseable e r (h r (by simp))]
        rw [ih (fun s hs => h s (by simp [hs]))]
  · intro st rs h1 h2
    have : day_end_period st = none := by
      unfold day_end_period
      rw [h1, h2]
    rw [this]
    rfl

/-- C7 witness: a record with label "???" is passed through by the clamp,
and unconfigured settings make the clamp the identity. -/
theorem clamp_fail_open_and_noop_witness :
    clampStep 4 recUnparseable = some recUnparseable ∧
    filter_records_by_end_period (day_end_period settingsNoEnd)
      [clampRec37, recUnparseable] = [clampRec37, recUnparseable] :=
  ⟨clamp_fail_open_and_noop.1 4 recUnparseable (by decide),
   clamp_fail_open_and_noop.2.2 settingsNoEnd [clampRec37, recUnparseable] rfl rfl⟩

/-- Write-decision of `SuplovaniZaci.extract_substitutions` (its trailing
`write = ...` block): with a non-empty include set the record is kept iff
its class is included; otherwise a non-empty exclude set keeps it iff its
class is not excluded; otherwise it is kept. Python's
`set(settings.get(key, []))` membership coincides with list membership. -/
def keep_record (inc exc : List String) (class_name : String) : Bool :=
  if inc ≠ [] then decide (class_name ∈ inc)
  else if exc ≠ [] then decide (class_name ∉ exc)
  else true

/-- Filtering stage of `SuplovaniZaci.extract_substitutions`: a candidate
record is appended to the output exactly when `write` is true. -/
def extract_substitutions_filter (st : EngineSettings)
    (cands : List SubRecord) : List SubRecord :=
  cands.filter (fun r => keep_record st.include_classes st.exclude_classes r.Class)

/-- C8: inclusion takes precedence over exclusion — with a non-empty
include set the record is kept iff its class is in it (whatever the exclude
set holds), else a non-empty exclude set drops exactly its members, else
everything is kept; and a record survives the extractor's filter exactly
when this decision accepts its class. -/
theorem extract_substitutions_filter_policy (inc exc : List String)
    (cls : String) :
    (inc ≠ [] → (keep_record inc exc cls = true ↔ cls ∈ inc)) ∧
    (inc = [] → exc ≠ [] → (keep_record inc exc cls = true ↔ cls ∉ exc)) ∧
    (inc = [] → exc = [] → keep_record inc exc cls = true) ∧
    (∀ (st : EngineSettings) (cands : List SubRecord) (r : SubRecord),
      r ∈ extract_substitutions_filter st cands ↔
        r ∈ cands ∧
          keep_record st.include_classes st.exclude_classes r.Class = true) := by
  refine ⟨?_, ?_, ?_, ?_⟩
  · intro h
    rw [keep_record, if_pos h]
    simp
  · intro h1 h2
    rw [keep_record, if_neg (not_not_intro h1), if_pos h2]
    simp
  · intro h1 h2
    rw [keep_record, if_neg (not_not_intro h1), if_neg (not_not_intro h2)]
  · intro st cands r
    rw [extract_substitutions_filter, List.mem_filter]

/-- C8 witness: with include = exclude = {"3A"} a class-3A record is kept
(inclusion wins). -/
theorem extract_substitutions_filter_policy_witness :
    keep_record ["3A"] ["3A"] "3A" = true :=
  ((extract_substitutions_filter_policy ["3A"] ["3A"] "3A").1
    (by decide)).mpr (by decide)

/-- Child element of a raw XML record: its tag and its text (Python's
`ElementTree` gives `None` text for empty elements). -/
structure XmlChild where
  tag : String
  text : Option String
deriving DecidableEq, Repr

/-- Raw XML record: the list of its direct children, in document order. -/
structure XmlElem where
  children : List XmlChild
deriving DecidableEq, Repr

/-- Model of `elem.find(tag)`: the first child with the tag, if any. -/
def xmlFind (e : XmlElem) (t : String) : Option XmlChild :=
  e.children.find? (fun c => c.tag == t)

/-- Model of `elem.find(tag).text` written WITHOUT a `None` guard, exactly
as Python evaluates it: a missing child makes the attribute access raise. -/
def findTextE (e : XmlElem) (t : String) : Except String (Option String) :=
  match xmlFind e t with
  | none => Except.error "AttributeError: NoneType object has no attribute text"
  | some c => Except.ok c.text

/-- Model of `SuplovaniBase.get(record, key, default)` with a string
default: the text if the child exists and has text, else the default. -/
def getD (e : XmlElem) (t : String) (default : String) : String :=
  match xmlFind e t with
  | some c =>
    match c.text with
    | some s => s
    | none => default
  | none => default

/-- Model of `SuplovaniBase.get(record, key, None)`: `none` plays Python's
`None` default. -/
def getOpt (e : XmlElem) (t : String) : Option String :=
  match xmlFind e t with
  | some c => c.text
  | none => none

/-- The source document as the engine reads it: the lists produced by
`root.findall(".//Tag")` for each element kind the embedded extractors
touch, in document order. -/
structure XmlDoc where
  predmet : List XmlElem
  ucitel2 : List XmlElem
  ucitel : List XmlElem
  suplovaniDruhAbsence : List XmlElem
  absenceZdrojeVeDni : List XmlElem
  absenceUcitele : List XmlElem
deriving Repr

/-- One step of the guarded `_extract_subjects` comprehension: the guard
checks both children exist before any `.text` access, so the raising read
happens only when it cannot fail. -/
def subjectStep (acc : List (Option String × Option String)) (s : XmlElem) :
    Except String (List (Option String × Option String)) :=
  if (xmlFind s "REALIZACE_ID").isSome && (xmlFind s "Zkratka").isSome then do
    let k ← findTextE s "REALIZACE_ID"
    let v ← findTextE s "Zkratka"
    pure (acc ++ [(k, v)])
  else pure acc

/-- Embeds `SuplovaniBase._extract_subjects` with raising semantics made
explicit (the guarded comprehension over `.//Predmet`). -/
def extract_subjects (doc : XmlDoc) :
    Except String (List (Option String × Option String)) :=
  doc.predmet.foldlM subjectStep []

/-- One step of the `_extract_absence_reasons` comprehension: it has NO
guard, so `.find(...).text` raises on an element missing either child. -/
def reasonStep (acc : List (Option String × Option String)) (a : XmlElem) :
    Except String (List (Option String × Option String)) := do
  let k ← findTextE a "SUPL_DRUH_ABSENCE_ID"
  let v ← findTextE a "Nazev"
  pure (acc ++ [(k, v)])

/-- Embeds `SuplovaniZaci._extract_absence_reasons` (the unguarded
comprehension over `.//SuplovaniDruhAbsence`). -/
def extract_absence_reasons (doc : XmlDoc) :
    Except String (List (Option String × Option String)) :=
  doc.suplovaniDruhAbsence.foldlM reasonStep []

/-- Field selector for a skipped subject element: what `_extract_subjects`
keeps of an element that passes the guard. -/
def subjectPick (s : XmlElem) : Option (Option String × Option String) :=
  match xmlFind s "REALIZACE_ID", xmlFind s "Zkratka" with
  | some k, some v => some (k.text, v.text)
  | _, _ => none

theorem extract_subjects_go (els : List XmlElem)
    (acc : List (Option String × Option String)) :
    els.foldlM subjectStep acc = Except.ok (acc ++ els.filterMap subjectPick) := by
  induction els generalizing acc with
  | nil =>
    rw [List.foldlM_nil, List.filterMap_nil, List.append_nil]
    rfl
  | cons s els ih =>
    rw [List.foldlM_cons, List.filterMap_cons]
    cases hk : xmlFind s "REALIZACE_ID" with
    | none =>
      have hstep : subjectStep acc s = pure acc := by
        rw [subjectStep, if_neg (by simp [hk])]
      rw [hstep]
      have hpick : subjectPick s = none := by
        rw [subjectPick, hk]
      rw [hpick]
      exact ih acc
    | some kc =>
      cases hv : xmlFind s "Zkratka" with
      | none =>
        have hstep : subjectStep acc s = pure acc := by
          rw [subjectStep, if_neg (by simp [hv])]
        rw [hstep]
        have hpick : subjectPick s = none := by
          rw [subjectPick, hk, hv]
        rw [hpick]
        exact ih acc
      | some vc =>
        have hstep : subjectStep acc s = pure (acc ++ [(kc.text, vc.text)]) := by
          rw [subjectStep, if_pos (by simp [hk, hv])]
          simp only [findTextE, hk, hv]
          rfl
        rw [hstep]
        have hpick : subjectPick s = some (kc.text, vc.text) := by
          rw [subjectPick, hk, hv]
        rw [hpick]
        show List.foldlM subjectStep (acc ++ [(kc.text, vc.text)]) els = _
        rw [ih]
        simp

theorem reasons_go_error (els : List XmlElem)
    (acc : List (Option String × Option String)) (e : XmlElem) (he : e ∈ els)
    (hbad : xmlFind e "SUPL_DRUH_ABSENCE_ID" = none) :
    ∃ msg, els.foldlM reasonStep acc = Except.error msg := by
  induction els generalizing acc with
  | nil => simp at he
  | cons a els ih =>
    rw [List.foldlM_cons]
    rcases List.mem_cons.mp he with rfl | he'
    · have hstep : reasonStep acc e =
          Except.error "AttributeError: NoneType object has no attribute text" := by
        rw [reasonStep]
        simp only [findTextE, hbad]
        rfl
      rw [hstep]
      exact ⟨_, rfl⟩
    · cases hstep : reasonStep acc a with
      | error msg => exact ⟨msg, rfl⟩
      | ok acc' =>
        obtain ⟨msg, hmsg⟩ := ih acc' he'
        exact ⟨msg, hmsg⟩

/-- Element with no children at all. -/
def emptyElem : XmlElem := ⟨[]⟩

/-- Document whose only content is one absence-reason element lacking both
identifying children. -/
def docBadReason : XmlDoc := ⟨[], [], [], [emptyElem], [], []⟩

/-- C9 counterexample: building the absence-reason mapping raises on an
element that lacks its identifying field, instead of skipping it — that
comprehension, unlike the others, has no guard. -/
theorem index_build_never_raises_cex :
    extract_absence_reasons docBadReason =
      Except.error "AttributeError: NoneType object has no attribute text" := by
  rfl

/-- C9 amended: the guarded sub-mappings (subjects shown as the cited
representative) never raise and silently exclude incomplete elements, but
the absence-reason mapping is unguarded: a document containing an element
without `SUPL_DRUH_ABSENCE_ID` makes its construction raise. -/
theorem index_build_skip_vs_raise :
    (∀ doc : XmlDoc, extract_subjects doc =
      Except.ok (doc.predmet.filterMap subjectPick)) ∧
    (∀ (doc : XmlDoc) (e : XmlElem), e ∈ doc.suplovaniDruhAbsence →
      xmlFind e "SUPL_DRUH_ABSENCE_ID" = none →
      ∃ msg, extract_absence_reasons doc = Except.error msg) := by
  constructor
  · intro doc
    rw [extract_subjects, extract_subjects_go]
    rw [List.nil_append]
  · intro doc e he hbad
    exact reasons_go_error doc.suplovaniDruhAbsence [] e he hbad

/-- C9 witness: the skip-incomplete characterisation evaluated on the
counterexample document (whose subject list is empty), and the raise on its
unguarded absence-reason element. -/
theorem index_build_skip_vs_raise_witness :
    extract_subjects docBadReason = Except.ok [] ∧
    ∃ msg, extract_absence_reasons docBadReason = Except.error msg :=
  ⟨index_build_skip_vs_raise.1 docBadReason,
   index_build_skip_vs_raise.2 docBadReason emptyElem (by decide) (by decide)⟩

/-- Teacher record as `_extract_teachers` stores it: the dict value
`{"abbreviation": ..., "name": ...}`; `abbreviation` is an `Option` because
the `Zkratka` element's text may be `None` — and because the fallback
record used for unindexed teachers carries no abbreviation at all. -/
structure TeacherInfo where
  abbreviation : Option String
  name : String
deriving DecidableEq, Repr

/-- Model of Python f-string interpolation of a possibly-`None` value. -/
def pyFmt : Option String → String
  | some s => s
  | none => "None"

/-- Embeds `SuplovaniZaci._extract_teachers`: `Ucitel2` then `Ucitel`
elements, guarded on all four children being present; the association list
keeps document order, and lookups take the last binding as a Python dict
comprehension would. -/
def extract_teachers (doc : XmlDoc) : List (Option String × TeacherInfo) :=
  (doc.ucitel2 ++ doc.ucitel).filterMap (fun t =>
    match xmlFind t "OSOBA_ID", xmlFind t "Zkratka", xmlFind t "Jmeno",
        xmlFind t "Prijmeni" with
    | some i, some z, some j, some p =>
      some (i.text, ⟨z.text, pyFmt j.text ++ " " ++ pyFmt p.text⟩)
    | _, _, _, _ => none)

/-- Python dict lookup over an association list built in insertion order:
a later binding overwrites an earlier one, so the last match wins. -/
def dictGet (pairs : List (Option String × α)) (k : Option String) : Option α :=
  ((pairs.filter (fun p => p.1 == k)).getLast?).map (fun p => p.2)

/-- Python comparison `udalost_id != tau` between
`get(absence, "UDALOST_ID", None)` and
`get(teacher_absence, "UDALOST_ID", False)`: the defaults `None` and
`False` never equal each other or a string, so rows match exactly when both
ids are present with equal text. -/
def eventMatch (u : Option String) (t : Option String) : Bool :=
  match u, t with
  | some a, some b => a == b
  | _, _ => false

/-- Absence report row emitted by `extract_absences`. -/
structure AbsenceEntry where
  Teacher : String
  Reason : Option String
  From : String
  To : String
  Periods : String
deriving DecidableEq, Repr

/-- Splitting a character list on a separator, Python `str.split(sep)`
style (an empty input gives one empty chunk). -/
def splitOnChar (sep : Char) (cs : List Char) : List (List Char) :=
  cs.foldr (fun c acc =>
    match acc with
    | [] => [[c]]
    | g :: gs => if c = sep then [] :: g :: gs else (c :: g) :: gs) [[]]

/-- Non-empty all-digit run. -/
def allDigits (cs : List Char) : Bool :=
  !cs.isEmpty && cs.all Char.isDigit

/-- Decimal value of a digit run. -/
def digitsToNat (cs : List Char) : Nat :=
  cs.foldl (fun n c => n * 10 + (c.toNat - 48)) 0

/-- Shape check for the date part `YYYY-MM-DD` of an ISO timestamp. -/
def isIsoDate (d : List Char) : Bool :=
  match splitOnChar '-' d with
  | [y, m, dd] =>
    (y.length == 4) && allDigits y && (m.length == 2) && allDigits m &&
    (dd.length == 2) && allDigits dd &&
    decide (1 ≤ digitsToNat m) && decide (digitsToNat m ≤ 12) &&
    decide (1 ≤ digitsToNat dd) && decide (digitsToNat dd ≤ 31)
  | _ => false

/-- Time part `HH:MM[:SS]` of an ISO timestamp, as seconds since midnight. -/
def parseTimePart (t : List Char) : Except String Nat :=
  match splitOnChar ':' t with
  | [h, m] =>
    if (h.length == 2) && allDigits h && (m.length == 2) && allDigits m &&
        decide (digitsToNat h < 24) && decide (digitsToNat m < 60) then
      Except.ok (3600 * digitsToNat h + 60 * digitsToNat m)
    else Except.error "ValueError: invalid isoformat string"
  | [h, m, s] =>
    if (h.length == 2) && allDigits h && (m.length == 2) && allDigits m &&
        (s.length == 2) && allDigits s &&
        decide (digitsToNat h < 24) && decide (digitsToNat m < 60) &&
        decide (digitsToNat s < 60) then
      Except.ok (3600 * digitsToNat h + 60 * digitsToNat m + digitsToNat s)
    else Except.error "ValueError: invalid isoformat string"
  | _ => Except.error "ValueError: invalid isoformat string"

/-- Model of `datetime.fromisoformat(...).time()` restricted to the
timestamp shapes occurring in the export, `YYYY-MM-DD` optionally followed
by `THH:MM[:SS]`; the result is the time of day in seconds since midnight
(a bare date has time midnight). Python's parser accepts some further
variants that do not occur here; like it, this one raises on everything it
does not recognise, the empty string included. -/
def fromisoformat (s : String) : Except String Nat :=
  match splitOnChar 'T' s.data with
  | [d] =>
    if isIsoDate d then Except.ok 0
    else Except.error "ValueError: invalid isoformat string"
  | [d, t] =>
    if isIsoDate d then parseTimePart t
    else Except.error "ValueError: invalid isoformat string"
  | _ => Except.error "ValueError: invalid isoformat string"

/-- Model of `strftime("%H:%M")` on a time of day. -/
def pad2 (n : Nat) : String :=
  if n < 10 then "0" ++ toString n else toString n

/-- Format seconds since midnight as `HH:MM`. -/
def fmtHM (t : Nat) : String :=
  pad2 (t / 3600) ++ ":" ++ pad2 (t % 3600 / 60)

/-- Inner-loop body of `SuplovaniZaci.extract_absences` for one
(absence row, teacher-absence row) pair: skip unrelated rows, skip rows
without a teacher id (the diagnostic print has no value semantics), look
the teacher up with the name-only fallback record, raise if the record has
no abbreviation to uppercase, skip denylisted abbreviations, then parse the
times and emit one report row. -/
def absencePairStep (tm : List (Option String × TeacherInfo))
    (reason : Option String) (udalost_id : Option String)
    (absence : XmlElem) (ta : XmlElem) : Except String (List AbsenceEntry) :=
  if eventMatch udalost_id (getOpt ta "UDALOST_ID") then
    match getOpt ta "OSOBA_ID" with
    | none => Except.ok []
    | some tid =>
      if tid = "" then Except.ok []
      else
        let tinfo := (dictGet tm (some tid)).getD ⟨none, "Neznámý učitel"⟩
        match tinfo.abbreviation with
        | none =>
          Except.error "AttributeError: NoneType object has no attribute upper"
        | some ab =>
          if pyUpper ab ∈ ["KOP", "HRN", "HEI"] then Except.ok []
          else do
            let od := getD absence "Od" ""
            let until_ := getD absence "Do" ""
            let fromT ← fromisoformat od
            let toT ← fromisoformat until_
            Except.ok [⟨tinfo.name, reason, fmtHM fromT, fmtHM toT,
              (detect_periods schedulePeriods fromT toT).2⟩]
  else Except.ok []

/-- Outer-loop body of `extract_absences` for one `AbsenceZdrojeVeDni`
row: resolve the reason (default "Neznámý důvod") and the event id, then
run the inner loop over every `AbsenceUcitele` row. -/
def absenceRowStep (doc : XmlDoc) (tm : List (Option String × TeacherInfo))
    (reasonMap : List (Option String × Option String)) (absence : XmlElem) :
    Except String (List AbsenceEntry) := do
  let reason := match dictGet reasonMap (some (getD absence "SUPL_DRUH_ABSENCE_ID" "")) with
    | some v => v
    | none => some "Neznámý důvod"
  let yss ← doc.absenceUcitele.mapM
    (absencePairStep tm reason (getOpt absence "UDALOST_ID") absence)
  pure yss.flatten

/-- Embeds `SuplovaniZaci.extract_absences`; the absence-reason mapping is
passed in as the already-built `self.absence_reason_mapping`. -/
def extract_absences (doc : XmlDoc)
    (reasonMap : List (Option String × Option String)) :
    Except String (List AbsenceEntry) := do
  let xss ← doc.absenceZdrojeVeDni.mapM
    (absenceRowStep doc (extract_teachers doc) reasonMap)
  pure xss.flatten

theorem mapM_error_of_mem {α β : Type} (f : α → Except String β) (l : List α)
    (x : α) (hx : x ∈ l) (e : String) (hf : f x = Except.error e) :
    ∃ msg, l.mapM f = Except.error msg := by
  induction l with
  | nil => simp at hx
  | cons a l ih =>
    rw [List.mapM_cons]
    rcases List.mem_cons.mp hx with rfl | hx'
    · rw [hf]
      exact ⟨e, rfl⟩
    · cases hfa : f a with
      | error e2 => exact ⟨e2, rfl⟩
      | ok b =>
        obtain ⟨msg, hmsg⟩ := ih hx'
        rw [hmsg]
        exact ⟨msg, rfl⟩

/-- C10: an absence row joined to a teacher-absence row whose teacher id is
present and non-empty but not a key of the teacher mapping makes
`extract_absences` raise (the name-only fallback record has no
abbreviation, so the non-teaching-staff denylist check uppercases None)
instead of skipping the row; `extract_absences` is therefore total only
when every referenced teacher id is indexed. -/
theorem extract_absences_unindexed_teacher_raises (doc : XmlDoc)
    (reasonMap : List (Option String × Option String))
    (az ta : XmlElem) (tid : String)
    (haz : az ∈ doc.absenceZdrojeVeDni)
    (hta : ta ∈ doc.absenceUcitele)
    (hmatch : eventMatch (getOpt az "UDALOST_ID") (getOpt ta "UDALOST_ID") = true)
    (htid : getOpt ta "OSOBA_ID" = some tid)
    (hne : tid ≠ "")
    (hunidx : dictGet (extract_teachers doc) (some tid) = none) :
    ∃ msg, extract_absences doc reasonMap = Except.error msg := by
  have hpair : ∀ reason : Option String,
      absencePairStep (extract_teachers doc) reason
        (getOpt az "UDALOST_ID") az ta =
      Except.error "AttributeError: NoneType object has no attribute upper" := by
    intro reason
    simp [absencePairStep, hmatch, htid, hunidx, hne]
  have hrow : ∃ m, absenceRowStep doc (extract_teachers doc) reasonMap az =
      Except.error m := by
    obtain ⟨m1, hm1⟩ := mapM_error_of_mem
      (absencePairStep (extract_teachers doc)
        (match dictGet reasonMap (some (getD az "SUPL_DRUH_ABSENCE_ID" "")) with
          | some v => v
          | none => some "Neznámý důvod")
        (getOpt az "UDALOST_ID") az)
      doc.absenceUcitele ta hta _ (hpair _)
    refine ⟨m1, ?_⟩
    simp only [absenceRowStep]
    rw [hm1]
    rfl
  obtain ⟨m, hm⟩ := hrow
  obtain ⟨m2, hm2⟩ := mapM_error_of_mem
    (absenceRowStep doc (extract_teachers doc) reasonMap)
    doc.absenceZdrojeVeDni az haz m hm
  refine ⟨m2, ?_⟩
  simp only [extract_absences]
  rw [hm2]
  rfl

/-- Absence row referencing event "u1". -/
def absenceElem : XmlElem := ⟨[⟨"UDALOST_ID", some "u1"⟩]⟩

/-- Teacher-absence row for event "u1" with teacher id "t1". -/
def teacherAbsElem : XmlElem :=
  ⟨[⟨"UDALOST_ID", some "u1"⟩, ⟨"OSOBA_ID", some "t1"⟩]⟩

/-- Document with one matching absence pair and an empty teacher index. -/
def docUnindexed : XmlDoc := ⟨[], [], [], [], [absenceElem], [teacherAbsElem]⟩

/-- C10 witness: on the concrete document whose only absence row references
the unindexed teacher "t1", absence extraction raises. -/
theorem extract_absences_unindexed_teacher_raises_witness :
    ∃ msg, extract_absences docUnindexed [] = Except.error msg :=
  extract_absences_unindexed_teacher_raises docUnindexed [] absenceElem
    teacherAbsElem "t1" (by decide) (by decide) (by decide) (by decide)
    (by decide) (by decide)
